import Mathlib

/-!
Shallow embedding of `types/author.go`: the polymorphic owner identity model,
the `GenerateOwner` factory, the binary (RLP) codec for `Author` via
`StorageAuthor`, and the JSON codec via `AuthorJSON`.

Go strings are modelled as Lean `String` (their character sequences are
accessed via `.data`); byte slices are modelled as `List Nat` (each entry a
byte value); `uint64` fields carry no arithmetic here and are modelled as
`Nat`.  Fallible operations return `Except String` or, for the pointer-receiver
decoders, a pair of the (possibly updated) receiver and an optional error,
mirroring Go's in-place assignment discipline.
-/

/-- `AuthorType` is a `uint8` tag; 0, 1, 2 are the known variants. -/
abbrev AuthorType := Nat

def AccountNameType : AuthorType := 0

def PubKeyType : AuthorType := 1

def AddressType : AuthorType := 2

/-- The static tag-name lookup table `AuthorTypeToString`. -/
def AuthorTypeToString : List (AuthorType × String) :=
  [(AccountNameType, "account"), (PubKeyType, "pubKey"), (AddressType, "address")]

/-- Value of a hex digit character, as in Go's `encoding/hex.fromHexChar`. -/
def hexVal (c : Char) : Option Nat :=
  if '0' ≤ c ∧ c ≤ '9' then some (c.toNat - '0'.toNat)
  else if 'a' ≤ c ∧ c ≤ 'f' then some (c.toNat - 'a'.toNat + 10)
  else if 'A' ≤ c ∧ c ≤ 'F' then some (c.toNat - 'A'.toNat + 10)
  else none

/-- Go `encoding/hex.DecodeString`, error dropped: hex pairs are decoded left
to right and, when the input is malformed (invalid character or odd length),
the bytes decoded before the error are returned — Go ≥ 1.10 semantics of
`d, _ := hex.DecodeString(s)`. -/
def hexDecodeAux : List Char → List Nat
  | p :: q :: rest =>
    match hexVal p, hexVal q with
    | some a, some b => (a * 16 + b) :: hexDecodeAux rest
    | _, _ => []
  | _ => []

/-- Whether Go `encoding/hex.DecodeString` reports a non-nil error on this
input: some character is not a hex digit, or the length is odd. -/
def hexDecodeFails : List Char → Bool
  | [] => false
  | [_] => true
  | p :: q :: rest =>
    match hexVal p, hexVal q with
    | some _, some _ => hexDecodeFails rest
    | _, _ => true

/-- Number of leading well-formed hex pairs, i.e. how many bytes Go's hex
decoder produces before stopping. -/
def validPairs : List Char → Nat
  | p :: q :: rest =>
    match hexVal p, hexVal q with
    | some _, some _ => validPairs rest + 1
    | _, _ => 0
  | _ => 0

/-- Lowercase hex digit character for a value in `[0, 15]`. -/
def hexDigitChar (n : Nat) : Char :=
  if n < 10 then Char.ofNat (48 + n) else Char.ofNat (97 + n - 10)

/-- Lowercase hex rendering of a byte sequence. -/
def hexEncodeChars (bs : List Nat) : List Char :=
  bs.foldr (fun b acc => hexDigitChar (b / 16 % 16) :: hexDigitChar (b % 16) :: acc) []

/-- Go `strings.Split(l, "0x")`, specialised to the separator `"0x"` used by
`GenerateOwner`: scans left to right, cutting at every (non-overlapping)
occurrence of `0x`; `acc` holds the current token reversed. -/
def split0x : List Char → List Char → List (List Char)
  | [], acc => [acc.reverse]
  | [c], acc => [(c :: acc).reverse]
  | c1 :: c2 :: rest, acc =>
    if c1 = '0' ∧ c2 = 'x' then acc.reverse :: split0x rest []
    else split0x (c2 :: rest) (c1 :: acc)

/-- Go `strings.HasPrefix(l, "0x")`. -/
def starts0x : List Char → Bool
  | c1 :: c2 :: _ => c1 = '0' && c2 = 'x'
  | _ => false

/-- Whether `"0x"` occurs anywhere in the character sequence
(Go `strings.Contains(l, "0x")`). -/
def has0x : List Char → Bool
  | [] => false
  | [_] => false
  | c1 :: c2 :: rest => (c1 = '0' && c2 = 'x') || has0x (c2 :: rest)

/-- The string mangling of the inner closure `f` in `GenerateOwner`:
`if strings.HasPrefix(in, "0x") { ds := strings.Split(in, "0x"); formatStr = ds[1] }`.
`ds[1]` always exists when the prefix test succeeds, so the `getD` default is
never used. -/
def stripHexMark (l : List Char) : List Char :=
  if starts0x l then (split0x l []).getD 1 [] else l

/-- The inner closure `f` of `GenerateOwner`: strip via `strings.Split` on
`"0x"` when the input has that prefix, then `d, _ := hex.DecodeString(...)`. -/
def fHexInput (s : String) : List Nat :=
  hexDecodeAux (stripHexMark s.data)

/-- The `Owner` interface: in the source an open Go interface with a `String()`
method, of which exactly three concrete implementations (`Name`, `PubKey`,
`Address`) are handled by the codecs.  `nilOwner` models a nil interface value
(e.g. `GenerateOwner` on an unknown tag) and `foreign` models any other
implementation of the interface, carrying only its display string. -/
inductive Owner where
  | name (s : String)
  | pubKey (bs : List Nat)
  | address (bs : List Nat)
  | nilOwner
  | foreign (repr : String)
deriving DecidableEq, Repr

/-- Modelled from the spec: the concrete identity types `Name`, `PubKey` and
`Address` live outside this fragment; their canonical display string is the
name verbatim for `Name` and `0x`-prefixed lowercase hex of the canonical
bytes for `PubKey`/`Address`.  `nilOwner` has no `String()` method in Go (a
call would panic); it is never reached from the codecs. -/
def Owner.string : Owner → String
  | .name s => s
  | .pubKey bs => "0x" ++ String.mk (hexEncodeChars bs)
  | .address bs => "0x" ++ String.mk (hexEncodeChars bs)
  | .nilOwner => ""
  | .foreign r => r

/-- Whether the owner's runtime variant is one of the three the codecs
handle. -/
def knownVariant : Owner → Bool
  | .name _ => true
  | .pubKey _ => true
  | .address _ => true
  | _ => false

/-- `GenerateOwner`: dispatch on the explicit `AuthorType`; `Name` wraps the
input verbatim; `PubKey`/`Address` run the input through the inner closure `f`
(`0x` handling plus hex decode) and `SetBytes` the result (modelled from the
spec: `SetBytes` stores the canonical byte payload, opaque at this layer).
On an unrecognized tag `copyOwner` is left as the nil interface value. -/
def GenerateOwner (author : String) (t : AuthorType) : Owner :=
  match t with
  | 0 => Owner.name author
  | 1 => Owner.pubKey (fHexInput author)
  | 2 => Owner.address (fHexInput author)
  | _ + 3 => Owner.nilOwner

/-- `Author` pairs an owner with a `uint64` weight. -/
structure Author where
  owner : Owner
  weight : Nat
deriving DecidableEq, Repr

def NewAuthor (owner : Owner) (weight : Nat) : Author :=
  ⟨owner, weight⟩

def Author.GetWeight (a : Author) : Nat :=
  a.weight

/-- Minimal big-endian byte rendering of a natural number (no leading zero
byte; `0` renders as the empty list), as used by RLP for payload lengths. -/
def natBytes (n : Nat) : List Nat :=
  if n = 0 then [] else natBytes (n / 256) ++ [n % 256]
decreasing_by exact Nat.div_lt_self (Nat.pos_of_ne_zero (by assumption)) (by omega)

/-- Big-endian reading of a byte sequence as a natural number. -/
def natFromBytes (l : List Nat) : Nat :=
  l.foldl (fun acc b => acc * 256 + b) 0

/-- RLP encoding of a byte string (`rlp.EncodeToBytes` on a string / byte
array value): a single byte below `0x80` is its own encoding; payloads of at
most 55 bytes get a one-byte `0x80 + len` header; longer payloads get a
`0xb7 + lenOfLen` header followed by the big-endian length. -/
def rlpEncodeBytes (bs : List Nat) : List Nat :=
  if bs.length = 1 ∧ bs.headD 0 < 0x80 then bs
  else if bs.length ≤ 55 then (0x80 + bs.length) :: bs
  else (0xb7 + (natBytes bs.length).length) :: (natBytes bs.length ++ bs)

/-- RLP decoding of a byte-string item consuming the whole input
(`rlp.DecodeBytes` into a string / byte-array value): rejects empty input,
list items (tag `≥ 0xc0`), trailing bytes, and the non-canonical forms Go's
rlp package rejects (single byte below `0x80` written with a header, a long
header for a short payload, leading zero in the length). -/
def rlpDecodeBytes (l : List Nat) : Option (List Nat) :=
  match l with
  | [] => none
  | b :: rest =>
    if b < 0x80 then
      if rest.isEmpty then some [b] else none
    else if b ≤ 0xb7 then
      if rest.length = b - 0x80 then
        if b - 0x80 = 1 ∧ rest.headD 0 < 0x80 then none else some rest
      else none
    else if b ≤ 0xbf then
      if rest.length < b - 0xb7 then none
      else
        if (rest.take (b - 0xb7)).headD 0 = 0 then none
        else if natFromBytes (rest.take (b - 0xb7)) ≤ 55 then none
        else if (rest.drop (b - 0xb7)).length = natFromBytes (rest.take (b - 0xb7)) then
          some (rest.drop (b - 0xb7))
        else none
    else none

/-- Canonical byte payload of a `Name`: a Go string is serialised as its byte
sequence; here a Lean `String` is rendered as the sequence of its character
codes (an injective rendering standing in for the UTF-8 bytes). -/
def strToBytes (s : String) : List Nat :=
  s.data.map Char.toNat

/-- Left inverse of `strToBytes`: rebuild the string when every entry is a
valid character code. -/
def bytesToStr (l : List Nat) : Option String :=
  if l.all (fun b => decide (b < 0xd800 ∨ (0xdfff < b ∧ b < 0x110000))) then
    some (String.mk (l.map Char.ofNat))
  else none

/-- The wire-only shadow of `Author`: `StorageAuthor{Type, DataRaw, Weight}`.
The Go field `Type` is a Lean keyword, hence `type_`. -/
structure StorageAuthor where
  type_ : AuthorType
  dataRaw : List Nat
  weight : Nat
deriving DecidableEq, Repr

/-- `Author.encode`: dispatch on the concrete runtime variant of `Owner`,
RLP-encode that value alone into `DataRaw`, and emit the `StorageAuthor`
with the matching tag; any other variant is `errors.New("author encode
failed")`. -/
def Author.encode (a : Author) : Except String StorageAuthor :=
  match a.owner with
  | Owner.name s =>
    Except.ok ⟨AccountNameType, rlpEncodeBytes (strToBytes s), a.weight⟩
  | Owner.pubKey bs =>
    Except.ok ⟨PubKeyType, rlpEncodeBytes bs, a.weight⟩
  | Owner.address bs =>
    Except.ok ⟨AddressType, rlpEncodeBytes bs, a.weight⟩
  | _ => Except.error "author encode failed"

/-- `Author.decode`: dispatch on `StorageAuthor.Type`, RLP-decode `DataRaw`
into the matching identity value, and only on success assign `a.Owner` and
`a.Weight`.  The pointer receiver is modelled explicitly: the result is the
new receiver value paired with the optional error, and on every error path
the receiver is returned untouched. -/
def Author.decode (a : Author) (sa : StorageAuthor) : Author × Option String :=
  match sa.type_ with
  | 0 =>
    match rlpDecodeBytes sa.dataRaw with
    | none => (a, some "rlp: decode error")
    | some bs =>
      match bytesToStr bs with
      | none => (a, some "rlp: decode error")
      | some s => (⟨Owner.name s, sa.weight⟩, none)
  | 1 =>
    match rlpDecodeBytes sa.dataRaw with
    | none => (a, some "rlp: decode error")
    | some bs => (⟨Owner.pubKey bs, sa.weight⟩, none)
  | 2 =>
    match rlpDecodeBytes sa.dataRaw with
    | none => (a, some "rlp: decode error")
    | some bs => (⟨Owner.address bs, sa.weight⟩, none)
  | _ + 3 => (a, some "author decode failed")

/-- JSON documents, at the level of structure this codec observes. -/
inductive Json where
  | obj (fields : List (String × Json))
  | str (s : String)
  | num (n : Nat)

/-- First binding of a key in a JSON object's field list. -/
def lookupField : List (String × Json) → String → Option Json
  | [], _ => none
  | (k, v) :: rest, key => if k = key then some v else lookupField rest key

/-- The `AuthorJSON` shadow struct.  `authorType` is unexported in Go. -/
structure AuthorJSON where
  authorType : AuthorType
  OwnerStr : String
  Weight : Nat
deriving DecidableEq, Repr

/-- `json.Marshal` of an `AuthorJSON` value: `encoding/json` serialises only
the exported fields, under their tag names `"owner"` and `"weight"`; the
unexported `authorType` is skipped. -/
def AuthorJSON.marshal (aj : AuthorJSON) : Json :=
  Json.obj [("owner", Json.str aj.OwnerStr), ("weight", Json.num aj.Weight)]

/-- `json.Unmarshal` into an `AuthorJSON`: the document must be an object;
`"owner"` (if present) must be a string and `"weight"` (if present) a number,
other keys are ignored, absent fields keep their zero values.  The unexported
`authorType` is never populated by `encoding/json` and keeps its zero value
`0`. -/
def AuthorJSON.fromJson (j : Json) : Option AuthorJSON :=
  match j with
  | Json.obj fields =>
    match lookupField fields "owner", lookupField fields "weight" with
    | some (Json.str s), some (Json.num n) => some ⟨0, s, n⟩
    | some (Json.str s), none => some ⟨0, s, 0⟩
    | none, some (Json.num n) => some ⟨0, "", n⟩
    | none, none => some ⟨0, "", 0⟩
    | _, _ => none
  | _ => none

/-- Modelled from the spec: `HexToPubKey` (identity-type constructor outside
this fragment) builds a public key from hex text, `0x` handling and hex
decoding as in the factory. -/
def HexToPubKey (s : String) : Owner :=
  Owner.pubKey (fHexInput s)

/-- Modelled from the spec: `common.HexToAddress` builds an address from hex
text. -/
def HexToAddress (s : String) : Owner :=
  Owner.address (fHexInput s)

/-- `Author.MarshalJSON`: dispatch on the runtime variant, build the
`AuthorJSON` shadow (its `authorType` field is set but, being unexported,
never serialised) with the owner's display string, and marshal it; an
unrecognized variant is `errors.New("Author marshal failed")`. -/
def Author.marshalJSON (a : Author) : Except String Json :=
  match a.owner with
  | Owner.name _ =>
    Except.ok (AuthorJSON.marshal ⟨AccountNameType, a.owner.string, a.weight⟩)
  | Owner.pubKey _ =>
    Except.ok (AuthorJSON.marshal ⟨PubKeyType, a.owner.string, a.weight⟩)
  | Owner.address _ =>
    Except.ok (AuthorJSON.marshal ⟨AddressType, a.owner.string, a.weight⟩)
  | _ => Except.error "Author marshal failed"

/-- `Author.UnmarshalJSON`: unmarshal the document into the `AuthorJSON`
shadow, then dispatch on its `authorType` — which `encoding/json` leaves at
zero — assigning owner and weight; when no case matches, the receiver is left
unchanged and a nil error is returned. -/
def Author.unmarshalJSON (a : Author) (j : Json) : Author × Option String :=
  match AuthorJSON.fromJson j with
  | none => (a, some "json: cannot unmarshal")
  | some aj =>
    match aj.authorType with
    | 0 => (⟨Owner.name aj.OwnerStr, aj.Weight⟩, none)
    | 1 => (⟨HexToPubKey aj.OwnerStr, aj.Weight⟩, none)
    | 2 => (⟨HexToAddress aj.OwnerStr, aj.Weight⟩, none)
    | _ + 3 => (a, none)

/-! ## Supporting lemmas -/

theorem split0x_no_occ : ∀ (l acc : List Char), has0x l = false →
    split0x l acc = [acc.reverse ++ l]
  | [], acc, _ => by simp [split0x]
  | [c], acc, _ => by simp [split0x]
  | c1 :: c2 :: rest, acc, h => by
    have hparts : ¬(c1 = '0' ∧ c2 = 'x') ∧ has0x (c2 :: rest) = false := by
      revert h
      simp [has0x]
    have ih := split0x_no_occ (c2 :: rest) (c1 :: acc) hparts.2
    simp [split0x, hparts.1, ih]

theorem split0x_cons0x (l acc : List Char) :
    split0x ('0' :: 'x' :: l) acc = acc.reverse :: split0x l [] := by
  simp [split0x]

theorem starts0x_false_of_has0x (l : List Char) (h : has0x l = false) :
    starts0x l = false := by
  match l with
  | [] => rfl
  | [c] => rfl
  | c1 :: c2 :: rest =>
    revert h
    simp [has0x, starts0x]
    tauto

theorem stripHexMark_keeps_input (l : List Char) (h : starts0x l = false) :
    stripHexMark l = l := by
  rw [stripHexMark, if_neg (by simp [h])]

theorem stripHexMark_cons0x (r : List Char) (h : has0x r = false) :
    stripHexMark ('0' :: 'x' :: r) = r := by
  rw [stripHexMark, if_pos (by simp [starts0x])]
  rw [split0x_cons0x, split0x_no_occ r [] h]
  rfl

theorem hexDecodeAux_length : ∀ l : List Char, (hexDecodeAux l).length = validPairs l
  | [] => by simp [hexDecodeAux, validPairs]
  | [c] => by simp [hexDecodeAux, validPairs]
  | p :: q :: rest => by
    cases hp : hexVal p <;> cases hq : hexVal q <;>
      simp [hexDecodeAux, validPairs, hp, hq, hexDecodeAux_length rest]

theorem hexDecodeFails_remainder : ∀ l : List Char, hexDecodeFails l = true →
    2 * validPairs l < l.length
  | [], h => by simp [hexDecodeFails] at h
  | [c], _ => by simp [validPairs]
  | p :: q :: rest, h => by
    cases hp : hexVal p <;> cases hq : hexVal q
    case none.none | none.some | some.none =>
      simp [validPairs, hp, hq]
    case some.some =>
      rw [hexDecodeFails] at h
      rw [hp, hq] at h
      have := hexDecodeFails_remainder rest h
      simp [validPairs, hp, hq]
      omega

theorem bytesToStr_strToBytes (s : String) : bytesToStr (strToBytes s) = some s := by
  have hvalid : (strToBytes s).all
      (fun b => decide (b < 0xd800 ∨ (0xdfff < b ∧ b < 0x110000))) = true := by
    simp only [strToBytes, List.all_eq_true]
    intro b hb
    obtain ⟨c, _, rfl⟩ := List.mem_map.mp hb
    exact decide_eq_true c.valid
  rw [bytesToStr, if_pos hvalid]
  have hmap : ∀ l : List Char, (l.map Char.toNat).map Char.ofNat = l := by
    intro l
    induction l with
    | nil => rfl
    | cons c t ih => simp [Char.ofNat_toNat, ih]
  cases s with
  | mk data => simp [strToBytes, hmap]

theorem natBytes_foldl (n : Nat) : ∀ acc : Nat,
    (natBytes n).foldl (fun acc b => acc * 256 + b) acc =
      acc * 256 ^ (natBytes n).length + n := by
  induction n using Nat.strong_induction_on with
  | _ n ih =>
    intro acc
    by_cases h : n = 0
    · subst h
      rw [natBytes]
      simp
    · rw [natBytes, if_neg h]
      rw [List.foldl_append, List.length_append]
      have ihh := ih (n / 256) (Nat.div_lt_self (Nat.pos_of_ne_zero h) (by omega)) acc
      rw [List.foldl_cons, List.foldl_nil, ihh]
      have hmod : n / 256 * 256 + n % 256 = n := by omega
      calc (acc * 256 ^ (natBytes (n / 256)).length + n / 256) * 256 + n % 256
          = acc * (256 ^ (natBytes (n / 256)).length * 256) + (n / 256 * 256 + n % 256) := by
            ring
        _ = acc * 256 ^ ((natBytes (n / 256)).length + [n % 256].length) + n := by
            rw [hmod, List.length_cons, List.length_nil, Nat.pow_succ]

theorem natFromBytes_natBytes (n : Nat) : natFromBytes (natBytes n) = n := by
  have := natBytes_foldl n 0
  simpa [natFromBytes] using this

theorem natBytes_head : ∀ n : Nat, n ≠ 0 →
    natBytes n ≠ [] ∧ (natBytes n).headD 0 ≠ 0 := by
  intro n
  induction n using Nat.strong_induction_on with
  | _ n ih =>
    intro h
    rw [natBytes, if_neg h]
    by_cases h2 : n / 256 = 0
    · rw [natBytes, if_pos h2]
      have hlt : n < 256 := by omega
      have : n % 256 = n := by omega
      simp [this, h]
    · obtain ⟨hne, hhd⟩ := ih (n / 256) (Nat.div_lt_self (Nat.pos_of_ne_zero h) (by omega)) h2
      obtain ⟨d, t, hdt⟩ : ∃ d t, natBytes (n / 256) = d :: t := by
        cases hx : natBytes (n / 256) with
        | nil => exact absurd hx hne
        | cons d t => exact ⟨d, t, rfl⟩
      rw [hdt]
      rw [hdt] at hhd
      simp at hhd
      simp [hhd]

theorem natBytes_length_le : ∀ (k n : Nat), n < 256 ^ k → (natBytes n).length ≤ k
  | 0, n, h => by
    have : n = 0 := by simpa using h
    subst this
    rw [natBytes]
    simp
  | k + 1, n, h => by
    by_cases h0 : n = 0
    · subst h0
      rw [natBytes]
      simp
    · rw [natBytes, if_neg h0]
      have hpow : (256 : Nat) ^ (k + 1) = 256 ^ k * 256 := Nat.pow_succ 256 k
      have hd : n / 256 < 256 ^ k := by
        rw [hpow] at h
        omega
      have := natBytes_length_le k (n / 256) hd
      rw [List.length_append]
      simp only [List.length_cons, List.length_nil]
      omega

theorem rlpDecodeBytes_rlpEncodeBytes (bs : List Nat) (hlen : bs.length < 2 ^ 64) :
    rlpDecodeBytes (rlpEncodeBytes bs) = some bs := by
  rw [rlpEncodeBytes]
  by_cases h1 : bs.length = 1 ∧ bs.headD 0 < 0x80
  · rw [if_pos h1]
    obtain ⟨b, rfl⟩ := List.length_eq_one.mp h1.1
    have hb : b < 0x80 := by simpa using h1.2
    rw [rlpDecodeBytes]
    rw [if_pos hb]
    rfl
  · rw [if_neg h1]
    by_cases h2 : bs.length ≤ 55
    · rw [if_pos h2]
      rw [rlpDecodeBytes]
      rw [if_neg (by omega), if_pos (by omega), if_pos (by omega)]
      rw [if_neg ?hcanon]
      case hcanon =>
        intro hc
        exact h1 ⟨by omega, hc.2⟩
    · rw [if_neg h2]
      rw [rlpDecodeBytes]
      have hne0 : bs.length ≠ 0 := by omega
      obtain ⟨hne, hhd⟩ := natBytes_head bs.length hne0
      have hllpos : 1 ≤ (natBytes bs.length).length := by
        cases hx : natBytes bs.length with
        | nil => exact absurd hx hne
        | cons d t => simp
      have hll8 : (natBytes bs.length).length ≤ 8 := by
        refine natBytes_length_le 8 bs.length ?_
        calc bs.length < 2 ^ 64 := hlen
          _ = 256 ^ 8 := by norm_num
      rw [if_neg (by omega), if_neg (by omega), if_pos (by omega)]
      have hsub : 0xb7 + (natBytes bs.length).length - 0xb7 = (natBytes bs.length).length := by
        omega
      rw [hsub]
      rw [List.take_left, List.drop_left]
      rw [if_neg ?hlenfit]
      case hlenfit =>
        rw [List.length_append]
        omega
      rw [if_neg (by simpa using hhd)]
      rw [natFromBytes_natBytes]
      rw [if_neg (by omega), if_pos rfl]

/-- Canonical payload length of an owner variant, which is what the RLP
length header encodes (Go slice/array lengths always fit a `uint64`). -/
def ownerPayloadLen : Owner → Nat
  | Owner.name s => (strToBytes s).length
  | Owner.pubKey bs => bs.length
  | Owner.address bs => bs.length
  | _ => 0

/-! ## Claim theorems -/

/-- Claim C1: for every Author whose Owner is one of the three known variants
(Name, PubKey, Address) and any weight, decoding the StorageAuthor produced by
`Author.encode` — into any receiver — yields an Author equal to the original:
same runtime variant, byte-for-byte equal canonical payload, and same weight.
The payload-length bound reflects Go's `uint64` bound on lengths. -/
theorem author_encode_decode_roundtrip (a r : Author)
    (hk : knownVariant a.owner = true) (hlen : ownerPayloadLen a.owner < 2 ^ 64) :
    ∃ sa, a.encode = Except.ok sa ∧ Author.decode r sa = (a, none) := by
  obtain ⟨o, w⟩ := a
  cases o with
  | name s =>
    refine ⟨_, rfl, ?_⟩
    have hr : rlpDecodeBytes (rlpEncodeBytes (strToBytes s)) = some (strToBytes s) :=
      rlpDecodeBytes_rlpEncodeBytes _ (by simpa [ownerPayloadLen] using hlen)
    simp [Author.decode, Author.encode, AccountNameType, hr, bytesToStr_strToBytes]
  | pubKey bs =>
    refine ⟨_, rfl, ?_⟩
    have hr : rlpDecodeBytes (rlpEncodeBytes bs) = some bs :=
      rlpDecodeBytes_rlpEncodeBytes _ (by simpa [ownerPayloadLen] using hlen)
    simp [Author.decode, Author.encode, PubKeyType, hr]
  | address bs =>
    refine ⟨_, rfl, ?_⟩
    have hr : rlpDecodeBytes (rlpEncodeBytes bs) = some bs :=
      rlpDecodeBytes_rlpEncodeBytes _ (by simpa [ownerPayloadLen] using hlen)
    simp [Author.decode, Author.encode, AddressType, hr]
  | nilOwner => simp [knownVariant] at hk
  | foreign r2 => simp [knownVariant] at hk

/-- Witness for C1 at a concrete PubKey author and an unrelated receiver. -/
theorem author_encode_decode_roundtrip_witness :
    knownVariant (Owner.pubKey [1, 2, 3]) = true ∧
    ownerPayloadLen (Owner.pubKey [1, 2, 3]) < 2 ^ 64 ∧
    ∃ sa, (Author.mk (Owner.pubKey [1, 2, 3]) 7).encode = Except.ok sa ∧
      Author.decode (Author.mk Owner.nilOwner 0) sa =
        (Author.mk (Owner.pubKey [1, 2, 3]) 7, none) :=
  ⟨by decide, by decide,
    author_encode_decode_roundtrip (Author.mk (Owner.pubKey [1, 2, 3]) 7)
      (Author.mk Owner.nilOwner 0) (by decide) (by decide)⟩

/-- Claim C3: for every StorageAuthor whose Type tag is outside 0, 1, 2,
`Author.decode` returns the decoding error and never succeeds silently. -/
theorem author_decode_unknown_tag (a : Author) (sa : StorageAuthor)
    (h0 : sa.type_ ≠ AccountNameType) (h1 : sa.type_ ≠ PubKeyType)
    (h2 : sa.type_ ≠ AddressType) :
    Author.decode a sa = (a, some "author decode failed") := by
  obtain ⟨t, raw, w⟩ := sa
  have g0 : t ≠ 0 := h0
  have g1 : t ≠ 1 := h1
  have g2 : t ≠ 2 := h2
  rcases t with _ | _ | _ | n
  · exact absurd rfl g0
  · exact absurd rfl g1
  · exact absurd rfl g2
  · rfl

/-- Witness for C3 at tag 3. -/
theorem author_decode_unknown_tag_witness :
    (3 : AuthorType) ≠ AccountNameType ∧ (3 : AuthorType) ≠ PubKeyType ∧
    (3 : AuthorType) ≠ AddressType ∧
    Author.decode (Author.mk Owner.nilOwner 0) ⟨3, [129, 171], 9⟩ =
      (Author.mk Owner.nilOwner 0, some "author decode failed") :=
  ⟨by decide, by decide, by decide,
    author_decode_unknown_tag (Author.mk Owner.nilOwner 0) ⟨3, [129, 171], 9⟩
      (by decide) (by decide) (by decide)⟩

/-- Claim C4: for every Author whose Owner is not one of the three concrete
identity types (a nil owner, or a foreign implementation of the Owner
interface), `Author.encode` returns the encoding error and produces no
StorageAuthor record. -/
theorem author_encode_unknown_variant (a : Author) (h : knownVariant a.owner = false) :
    a.encode = Except.error "author encode failed" := by
  obtain ⟨o, w⟩ := a
  cases o with
  | name s => simp [knownVariant] at h
  | pubKey bs => simp [knownVariant] at h
  | address bs => simp [knownVariant] at h
  | nilOwner => rfl
  | foreign r => rfl

/-- Witness for C4 at a foreign owner variant. -/
theorem author_encode_unknown_variant_witness :
    knownVariant (Owner.foreign "external") = false ∧
    (Author.mk (Owner.foreign "external") 7).encode = Except.error "author encode failed" :=
  ⟨by decide, author_encode_unknown_variant (Author.mk (Owner.foreign "external") 7) (by decide)⟩

/-- Claim C10: whenever `Author.decode` returns an error — unknown type tag or
the nested payload decoder rejecting DataRaw — the receiver Author comes back
unchanged: neither Owner nor Weight is assigned on any error path. -/
theorem author_decode_error_keeps_receiver (a : Author) (sa : StorageAuthor)
    (a' : Author) (e : String) (h : Author.decode a sa = (a', some e)) : a' = a := by
  unfold Author.decode at h
  repeat' split at h
  all_goals injection h with h1 h2
  all_goals first
    | exact h1.symm
    | cases h2

/-- Witness for C10: a malformed payload under a known tag leaves the
receiver untouched. -/
theorem author_decode_error_keeps_receiver_witness :
    Author.decode (Author.mk (Owner.name "keep") 4) ⟨1, [], 9⟩ =
      (Author.mk (Owner.name "keep") 4, some "rlp: decode error") ∧
    Author.mk (Owner.name "keep") 4 = Author.mk (Owner.name "keep") 4 :=
  ⟨by decide,
    author_decode_error_keeps_receiver (Author.mk (Owner.name "keep") 4) ⟨1, [], 9⟩
      (Author.mk (Owner.name "keep") 4) "rlp: decode error" (by decide)⟩

theorem unmarshal_obj (r : Author) (s : String) (w : Nat) :
    Author.unmarshalJSON r (Json.obj [("owner", Json.str s), ("weight", Json.num w)]) =
      (Author.mk (Owner.name s) w, none) := by
  rw [Author.unmarshalJSON, AuthorJSON.fromJson]
  rw [lookupField, if_pos rfl]
  rw [lookupField, if_neg (by decide), lookupField, if_pos rfl]

/-- Claim C5 (corrected, counterexample): the marshalled JSON object carries
no "type" field at all — `authorType` is unexported, so `encoding/json`
skips it. -/
theorem author_marshal_no_type_cex :
    (Author.mk (Owner.name "a") 1).marshalJSON =
      Except.ok (Json.obj [("owner", Json.str "a"), ("weight", Json.num 1)]) ∧
    lookupField [("owner", Json.str "a"), ("weight", Json.num 1)] "type" = none ∧
    lookupField [("owner", Json.str "a"), ("weight", Json.num 1)] "owner" =
      some (Json.str "a") ∧
    lookupField [("owner", Json.str "a"), ("weight", Json.num 1)] "weight" =
      some (Json.num 1) :=
  ⟨rfl, rfl, rfl, rfl⟩

/-- Claim C5 (amended): for every Author with a known variant,
`Author.MarshalJSON` produces the JSON object
obj with fields owner (the canonical display string) and weight only; it
contains no "type" field, because the numeric tag lives in the unexported
`authorType` field that `encoding/json` does not serialise. -/
theorem author_marshal_shape (a : Author) (hk : knownVariant a.owner = true) :
    a.marshalJSON =
      Except.ok (Json.obj
        [("owner", Json.str a.owner.string), ("weight", Json.num a.weight)]) ∧
    lookupField
      [("owner", Json.str a.owner.string), ("weight", Json.num a.weight)] "type" = none := by
  constructor
  · obtain ⟨o, w⟩ := a
    cases o with
    | name s => rfl
    | pubKey bs => rfl
    | address bs => rfl
    | nilOwner => simp [knownVariant] at hk
    | foreign r => simp [knownVariant] at hk
  · rw [lookupField, if_neg (by decide), lookupField, if_neg (by decide), lookupField]

/-- Witness for the amended C5 at a concrete PubKey author. -/
theorem author_marshal_shape_witness :
    knownVariant (Owner.pubKey [171]) = true ∧
    ((Author.mk (Owner.pubKey [171]) 5).marshalJSON =
      Except.ok (Json.obj
        [("owner", Json.str (Owner.pubKey [171]).string), ("weight", Json.num 5)]) ∧
    lookupField
      [("owner", Json.str (Owner.pubKey [171]).string), ("weight", Json.num 5)] "type" = none) :=
  ⟨by decide, author_marshal_shape (Author.mk (Owner.pubKey [171]) 5) (by decide)⟩

/-- Claim C2 (corrected, counterexample): a PubKey Author does not round-trip
through the JSON codec with its variant intact — unmarshalling the marshalled
form yields a Name owner. -/
theorem author_json_roundtrip_cex :
    (Author.mk (Owner.pubKey [171]) 5).marshalJSON =
      Except.ok (Json.obj [("owner", Json.str "0xab"), ("weight", Json.num 5)]) ∧
    Author.unmarshalJSON (Author.mk Owner.nilOwner 0)
        (Json.obj [("owner", Json.str "0xab"), ("weight", Json.num 5)]) =
      (Author.mk (Owner.name "0xab") 5, none) ∧
    Owner.name "0xab" ≠ Owner.pubKey [171] :=
  ⟨rfl, rfl, by decide⟩

/-- Claim C2 (amended): for every Author with a known variant and any
receiver, marshalling and unmarshalling back yields an Author with the same
weight whose owner is a Name holding the original owner's canonical string
form; the runtime variant is preserved only when the original owner is a
Name. -/
theorem author_json_roundtrip_canonical (a r : Author) (hk : knownVariant a.owner = true) :
    ∃ j, a.marshalJSON = Except.ok j ∧
      Author.unmarshalJSON r j = (Author.mk (Owner.name a.owner.string) a.weight, none) := by
  obtain ⟨o, w⟩ := a
  cases o with
  | name s => exact ⟨_, rfl, unmarshal_obj r (Owner.name s).string w⟩
  | pubKey bs => exact ⟨_, rfl, unmarshal_obj r (Owner.pubKey bs).string w⟩
  | address bs => exact ⟨_, rfl, unmarshal_obj r (Owner.address bs).string w⟩
  | nilOwner => simp [knownVariant] at hk
  | foreign r2 => simp [knownVariant] at hk

/-- Witness for the amended C2 at a concrete Name author. -/
theorem author_json_roundtrip_canonical_witness :
    knownVariant (Owner.name "bob") = true ∧
    ∃ j, (Author.mk (Owner.name "bob") 2).marshalJSON = Except.ok j ∧
      Author.unmarshalJSON (Author.mk Owner.nilOwner 0) j =
        (Author.mk (Owner.name (Owner.name "bob").string) 2, none) :=
  ⟨by decide,
    author_json_roundtrip_canonical (Author.mk (Owner.name "bob") 2)
      (Author.mk Owner.nilOwner 0) (by decide)⟩

theorem fromJson_authorType (j : Json) (aj : AuthorJSON)
    (h : AuthorJSON.fromJson j = some aj) : aj.authorType = 0 := by
  cases j with
  | obj fields =>
    rw [AuthorJSON.fromJson] at h
    split at h <;> cases h <;> rfl
  | str s => simp [AuthorJSON.fromJson] at h
  | num n => simp [AuthorJSON.fromJson] at h

/-- Claim C9: for every JSON input accepted by `Author.UnmarshalJSON`, the
resulting Author's Owner is a Name built verbatim from the "owner" string
field, whatever variant the original had: the unexported `authorType` field
of AuthorJSON is never populated by JSON unmarshalling, so the type dispatch
always takes the AccountNameType branch. -/
theorem author_unmarshal_always_name (a : Author) (j : Json)
    (h : (Author.unmarshalJSON a j).2 = none) :
    ∃ aj, AuthorJSON.fromJson j = some aj ∧ aj.authorType = AccountNameType ∧
      (Author.unmarshalJSON a j).1 = Author.mk (Owner.name aj.OwnerStr) aj.Weight := by
  cases hf : AuthorJSON.fromJson j with
  | none =>
    rw [Author.unmarshalJSON, hf] at h
    simp at h
  | some aj =>
    have ht : aj.authorType = 0 := fromJson_authorType j aj hf
    refine ⟨aj, rfl, ht, ?_⟩
    rw [Author.unmarshalJSON, hf]
    obtain ⟨t, s, wt⟩ := aj
    simp only at ht
    subst ht
    rfl

/-- Witness for C9 at a concrete accepted JSON object. -/
theorem author_unmarshal_always_name_witness :
    (Author.unmarshalJSON (Author.mk Owner.nilOwner 0)
        (Json.obj [("owner", Json.str "bob"), ("weight", Json.num 2)])).2 = none ∧
    ∃ aj, AuthorJSON.fromJson
        (Json.obj [("owner", Json.str "bob"), ("weight", Json.num 2)]) = some aj ∧
      aj.authorType = AccountNameType ∧
      (Author.unmarshalJSON (Author.mk Owner.nilOwner 0)
          (Json.obj [("owner", Json.str "bob"), ("weight", Json.num 2)])).1 =
        Author.mk (Owner.name aj.OwnerStr) aj.Weight :=
  ⟨rfl, author_unmarshal_always_name (Author.mk Owner.nilOwner 0)
    (Json.obj [("owner", Json.str "bob"), ("weight", Json.num 2)]) rfl⟩

/-- Claim C6 (corrected, counterexample): with input `"0xA0xBB"` — which is
`"0x" ++ "A0xBB"` — the text reaching the hex decoder is `"A"`, not the full
remainder `"A0xBB"`: `strings.Split` also discards everything from the next
occurrence of `"0x"` onward, and the constructed owner differs from the one
the claim implies. -/
theorem generate_owner_strip_cex :
    ("0xA0xBB" : String) = "0x" ++ "A0xBB" ∧
    stripHexMark "0xA0xBB".data = ['A'] ∧
    "A0xBB".data = ['A', '0', 'x', 'B', 'B'] ∧
    stripHexMark "0xA0xBB".data ≠ "A0xBB".data ∧
    GenerateOwner "0xA0xBB" PubKeyType ≠ Owner.pubKey (hexDecodeAux "A0xBB".data) :=
  ⟨rfl, by decide, by decide, by decide, by decide⟩

/-- Claim C6 (amended): an input that does not begin with `"0x"` reaches the
hex decoder unaltered; for an input `"0x" ++ r`, the remainder `r` reaches
the decoder unaltered only when `r` contains no further occurrence of
`"0x"` — otherwise `strings.Split` truncates it at the next occurrence. -/
theorem generate_owner_strip_amended (s r : String)
    (h1 : starts0x s.data = false) (h2 : has0x r.data = false) :
    stripHexMark s.data = s.data ∧
    stripHexMark ("0x" ++ r).data = r.data ∧
    GenerateOwner ("0x" ++ r) PubKeyType = Owner.pubKey (hexDecodeAux r.data) := by
  have hdata : ("0x" ++ r).data = '0' :: 'x' :: r.data := by
    rw [String.data_append]
    rfl
  have hstrip : stripHexMark ("0x" ++ r).data = r.data := by
    rw [hdata]
    exact stripHexMark_cons0x r.data h2
  refine ⟨stripHexMark_keeps_input s.data h1, hstrip, ?_⟩
  show Owner.pubKey (fHexInput ("0x" ++ r)) = _
  rw [fHexInput, hstrip]

/-- Witness for the amended C6 at concrete strings. -/
theorem generate_owner_strip_amended_witness :
    starts0x "AB".data = false ∧ has0x "CD".data = false ∧
    (stripHexMark "AB".data = "AB".data ∧
     stripHexMark ("0x" ++ "CD").data = "CD".data ∧
     GenerateOwner ("0x" ++ "CD") PubKeyType = Owner.pubKey (hexDecodeAux "CD".data)) :=
  ⟨by decide, by decide, generate_owner_strip_amended "AB" "CD" (by decide) (by decide)⟩

/-- Claim C7 (corrected, counterexample): on the prefix-stripped input
`"AAZZ"` hex decoding fails, yet the byte sequence used to construct the
identity value is `[0xAA]` — the bytes decoded before the error — not the
empty sequence. -/
theorem generate_owner_hex_failure_cex :
    stripHexMark "AAZZ".data = "AAZZ".data ∧
    hexDecodeFails "AAZZ".data = true ∧
    GenerateOwner "AAZZ" PubKeyType = Owner.pubKey [170] ∧
    GenerateOwner "AAZZ" PubKeyType ≠ Owner.pubKey [] := by
  refine ⟨by decide, by decide, by decide, by decide⟩

/-- Claim C7 (amended): for every input whose prefix-stripped form fails hex
decoding, the factory still constructs and returns an owner rather than
failing, built from the bytes decoded before the first error — one byte per
leading valid hex pair, with the error site strictly beyond those pairs (the
sequence is empty exactly when the very first pair is already invalid). -/
theorem generate_owner_hex_failure_amended (s : String)
    (h : hexDecodeFails (stripHexMark s.data) = true) :
    GenerateOwner s PubKeyType = Owner.pubKey (hexDecodeAux (stripHexMark s.data)) ∧
    GenerateOwner s AddressType = Owner.address (hexDecodeAux (stripHexMark s.data)) ∧
    (hexDecodeAux (stripHexMark s.data)).length = validPairs (stripHexMark s.data) ∧
    2 * validPairs (stripHexMark s.data) < (stripHexMark s.data).length :=
  ⟨rfl, rfl, hexDecodeAux_length (stripHexMark s.data),
    hexDecodeFails_remainder (stripHexMark s.data) h⟩

/-- Witness for the amended C7 at a concrete failing input. -/
theorem generate_owner_hex_failure_amended_witness :
    hexDecodeFails (stripHexMark "AAZZ".data) = true ∧
    (GenerateOwner "AAZZ" PubKeyType =
        Owner.pubKey (hexDecodeAux (stripHexMark "AAZZ".data)) ∧
     GenerateOwner "AAZZ" AddressType =
        Owner.address (hexDecodeAux (stripHexMark "AAZZ".data)) ∧
     (hexDecodeAux (stripHexMark "AAZZ".data)).length =
        validPairs (stripHexMark "AAZZ".data) ∧
     2 * validPairs (stripHexMark "AAZZ".data) < (stripHexMark "AAZZ".data).length) :=
  ⟨by decide, generate_owner_hex_failure_amended "AAZZ" (by decide)⟩

/-- Claim C8 (corrected, counterexample): the prefix law fails for a suffix
that itself contains `"0x"`: `"A0xBB"` does not begin with `"0x"`, yet
`GenerateOwner("0x" ++ "A0xBB", PubKeyType)` differs from
`GenerateOwner("A0xBB", PubKeyType)`. -/
theorem generate_owner_prefix_cex :
    starts0x "A0xBB".data = false ∧
    GenerateOwner ("0x" ++ "A0xBB") PubKeyType ≠ GenerateOwner "A0xBB" PubKeyType := by
  refine ⟨by decide, by decide⟩

/-- Claim C8 (amended): `GenerateOwner("0xAABB", PubKeyType)` and
`GenerateOwner("AABB", PubKeyType)` produce identical owners, and in general
prepending `"0x"` leaves the result unchanged for every string containing no
occurrence of `"0x"` at all (for both PubKeyType and AddressType). -/
theorem generate_owner_prefix_amended (s : String) (t : AuthorType)
    (h1 : has0x s.data = false) (h2 : t = PubKeyType ∨ t = AddressType) :
    GenerateOwner ("0x" ++ s) t = GenerateOwner s t := by
  have hdata : ("0x" ++ s).data = '0' :: 'x' :: s.data := by
    rw [String.data_append]
    rfl
  have hstrip : stripHexMark ("0x" ++ s).data = s.data := by
    rw [hdata]
    exact stripHexMark_cons0x s.data h1
  have hstrip2 : stripHexMark s.data = s.data :=
    stripHexMark_keeps_input s.data (starts0x_false_of_has0x s.data h1)
  have hfx : fHexInput ("0x" ++ s) = fHexInput s := by
    rw [fHexInput, fHexInput, hstrip, hstrip2]
  rcases h2 with rfl | rfl
  · show Owner.pubKey (fHexInput ("0x" ++ s)) = Owner.pubKey (fHexInput s)
    rw [hfx]
  · show Owner.address (fHexInput ("0x" ++ s)) = Owner.address (fHexInput s)
    rw [hfx]

/-- Witness for the amended C8: the concrete pair from the claim. -/
theorem generate_owner_prefix_amended_witness :
    has0x "AABB".data = false ∧
    GenerateOwner ("0x" ++ "AABB") PubKeyType = GenerateOwner "AABB" PubKeyType :=
  ⟨by decide, generate_owner_prefix_amended "AABB" PubKeyType (by decide) (Or.inl rfl)⟩
